import Mathlib

/-!
Verification of the org-viewer server core (`src-tauri/src/server/`):
a shallow embedding in Lean 4 of the path-guard, tree-builder, project
listing, file read/write handlers, the WebSocket fan-out loop and the
dual-listener bootstrap, together with theorems settling the spec claims.
-/

namespace OrgViewer

/-- HTTP status classification used by the handlers in `projects.rs`
(`StatusCode::NOT_FOUND`, `FORBIDDEN`, `INTERNAL_SERVER_ERROR`, `OK`). -/
inductive Status where
  | notFound
  | forbidden
  | internalError
deriving DecidableEq, Repr

/- ### Language detection (`projects.rs::detect_language`) -/

/-- The substring a Rust `filename.rsplit('.').next()` yields: the part of
the filename after the last dot, or the whole filename when it contains no
dot (Rust `rsplit` always yields at least one piece, so the `?` on
`.next()` never fires). -/
def extOf (filename : String) : String :=
  String.mk ((filename.data.reverse.takeWhile (fun c => c ≠ '.')).reverse)

/-- The fixed extension→tag table of `detect_language`, matched against the
raw (not lowercased) substring. -/
def langOfExt (ext : String) : Option String :=
  match ext with
  | "rs" => some "rust"
  | "ts" => some "typescript"
  | "tsx" => some "typescriptJsx"
  | "js" => some "javascript"
  | "jsx" => some "javascriptJsx"
  | "py" => some "python"
  | "json" => some "json"
  | "md" | "markdown" => some "markdown"
  | "css" => some "css"
  | "scss" | "sass" => some "css"
  | "html" | "htm" => some "html"
  | "toml" => some "toml"
  | "yaml" | "yml" => some "yaml"
  | "sql" => some "sql"
  | "sh" | "bash" | "zsh" => some "shell"
  | "ps1" => some "powershell"
  | "xml" | "svg" => some "xml"
  | "go" => some "go"
  | "java" => some "java"
  | "c" | "h" => some "c"
  | "cpp" | "cc" | "cxx" | "hpp" => some "cpp"
  | "lua" => some "lua"
  | "rb" => some "ruby"
  | "php" => some "php"
  | "swift" => some "swift"
  | "kt" | "kts" => some "kotlin"
  | "dart" => some "dart"
  | "lock" => some "json"
  | _ => none

/-- `projects.rs::detect_language`: detect language from the file
extension.  Translates `filename.rsplit('.').next()` feeding the `match`. -/
def detect_language (filename : String) : Option String :=
  langOfExt (extOf filename)

/- ### Binary-extension filter (`projects.rs::is_binary_extension`) -/

/-- `projects.rs::is_binary_extension`: check if a file is likely binary
based on extension.  Same `rsplit('.').next()` front end (always `Some`). -/
def is_binary_extension (filename : String) : Bool :=
  match extOf filename with
  | "png" | "jpg" | "jpeg" | "gif" | "ico" | "bmp" | "webp" | "svg"
  | "woff" | "woff2" | "ttf" | "otf" | "eot"
  | "zip" | "tar" | "gz" | "bz2" | "xz" | "7z"
  | "exe" | "dll" | "so" | "dylib"
  | "pdf" | "doc" | "docx" | "xls" | "xlsx"
  | "mp3" | "mp4" | "wav" | "avi" | "mkv" | "flac"
  | "db" | "sqlite" | "sqlite3"
  | "wasm" | "map" => true
  | _ => false

/- ### Exclusion sets (`projects.rs::EXCLUDED_DIRS` / `EXCLUDED_FILES`) -/

/-- Directories to skip when building file trees. -/
def EXCLUDED_DIRS : List String :=
  ["node_modules", ".git", ".obsidian", "dist", "build", "target",
   "__pycache__", ".next", ".turbo", ".cargo", ".cache", ".parcel-cache",
   "coverage", ".svelte-kit", ".nuxt", ".output", "vendor", ".vercel"]

/-- Files to skip. -/
def EXCLUDED_FILES : List String :=
  [".DS_Store", "Thumbs.db", ".env", ".env.local"]

/-- `projects.rs::should_exclude_entry`. -/
def should_exclude_entry (name : String) (is_dir : Bool) : Bool :=
  if is_dir then EXCLUDED_DIRS.contains name else EXCLUDED_FILES.contains name

/- ### Path model (`PathBuf`, `canonicalize`, `starts_with`) -/

/-- A textual filesystem path: Rust `PathBuf` modelled as an absolute flag
plus a component list. -/
structure FsPath where
  absolute : Bool
  segs : List String
deriving DecidableEq, Repr

/-- Rust `PathBuf::join`: pushing an absolute path replaces the base
entirely (this is how an "absolute path disguised as relative" enters). -/
def FsPath.join (base p : FsPath) : FsPath :=
  if p.absolute then p else ⟨base.absolute, base.segs ++ p.segs⟩

/-- A canonical path, as produced by `std::fs::canonicalize`: absolute,
symlink-free and free of `.`/`..` components, so Rust `Path::starts_with`
on two canonical paths is component-list prefix. -/
abbrev CanonPath := List String

/-- The filesystem as the handlers in `projects.rs` observe it: each field
models one std/tokio filesystem primitive the handlers call.
`canonicalize` returns `some` canonical components exactly when the target
exists and resolves (it errors — `none` — on a nonexistent path);
`write_ok` tells whether `tokio::fs::write` at the canonical target
succeeds (it fails e.g. when the target is a directory); `tree_of` stands
for `build_tree(project_dir, project_dir)`, whose internals the guard
logic never inspects. -/
structure FS where
  canonicalize : FsPath → Option CanonPath
  is_file : CanonPath → Bool
  is_dir : FsPath → Bool
  read_to_string : CanonPath → Option String
  metadata_len : CanonPath → Option Nat
  write_ok : CanonPath → Bool
  tree_of : FsPath → List String

/-- `state.org_root.join("projects")`. -/
def projectsPath (org_root : FsPath) : FsPath :=
  org_root.join ⟨false, ["projects"]⟩

/-- `projects.rs::ProjectFile` (the 200 body of `get_file`). -/
structure ProjectFile where
  path : FsPath
  content : String
  language : Option String
  size : Nat
deriving Repr

/-- `projects.rs::get_file` — GET /api/projects/:name/file/*path.
Faithful to the source's order of checks: canonicalize the projects root
(500 on failure), canonicalize the joined full path (404 on failure),
reject targets that do not start with the canonical root (403), require a
regular file (404), read to string (500 on failure), then assemble the
body with size and detected language of the canonical path's last
component. -/
def get_file (fs : FS) (org_root name file_path : FsPath) :
    Except Status ProjectFile :=
  let full_path := ((projectsPath org_root).join name).join file_path
  match fs.canonicalize (projectsPath org_root) with
  | none => .error .internalError
  | some canonical_projects =>
    match fs.canonicalize full_path with
    | none => .error .notFound
    | some canonical_path =>
      if ¬ canonical_projects.isPrefixOf canonical_path then
        .error .forbidden
      else if ¬ fs.is_file canonical_path then
        .error .notFound
      else
        match fs.read_to_string canonical_path with
        | none => .error .internalError
        | some content =>
          let filename := canonical_path.getLastD ""
          let size := (fs.metadata_len canonical_path).getD 0
          .ok ⟨file_path, content, detect_language filename, size⟩

/-- Outcome of `put_file`: the status the handler returns, and
`writeTarget` — the canonical path the handler handed to
`tokio::fs::write`, or `none` when control never reached the write call. -/
structure PutOutcome where
  result : Except Status Unit
  writeTarget : Option CanonPath
deriving Repr

/-- `projects.rs::put_file` — PUT /api/projects/:name/file/*path.
Canonicalize the projects root (500 on failure) and the joined full path
(404 on failure — this is the only existence check: the file must already
exist for canonicalize to succeed), reject targets outside the canonical
root (403), then overwrite via `tokio::fs::write` (500 when the write
errors, 200 otherwise). -/
def put_file (fs : FS) (org_root name file_path : FsPath)
    (_content : String) : PutOutcome :=
  let full_path := ((projectsPath org_root).join name).join file_path
  match fs.canonicalize (projectsPath org_root) with
  | none => ⟨.error .internalError, none⟩
  | some canonical_projects =>
    match fs.canonicalize full_path with
    | none => ⟨.error .notFound, none⟩
    | some canonical_path =>
      if ¬ canonical_projects.isPrefixOf canonical_path then
        ⟨.error .forbidden, none⟩
      else if fs.write_ok canonical_path then
        ⟨.ok (), some canonical_path⟩
      else
        ⟨.error .internalError, some canonical_path⟩

/-- `projects.rs::get_tree` — GET /api/projects/:name/tree.
Require the joined project directory to be a directory (404), canonicalize
the projects root (500 on failure) and the project directory (404 on
failure), reject canonical targets outside the canonical root (403), then
answer with the built tree. -/
def get_tree (fs : FS) (org_root name : FsPath) :
    Except Status (List String) :=
  let project_dir := (projectsPath org_root).join name
  if ¬ fs.is_dir project_dir then .error .notFound
  else
    match fs.canonicalize (projectsPath org_root) with
    | none => .error .internalError
    | some canonical_projects =>
      match fs.canonicalize project_dir with
      | none => .error .notFound
      | some canonical_project =>
        if ¬ canonical_projects.isPrefixOf canonical_project then
          .error .forbidden
        else
          .ok (fs.tree_of project_dir)

/- ### Tree builder (`projects.rs::build_tree`) -/

/-- A directory entry as `std::fs::read_dir` yields it: a name plus either
file metadata (size, `none` when `entry.metadata()` errors) or, for a
directory, its own entries in filesystem enumeration order. -/
inductive FSNode where
  | file (name : String) (size : Option Nat)
  | dir (name : String) (entries : List FSNode)
deriving Repr

/-- `entry.file_name()`. -/
def FSNode.name : FSNode → String
  | .file n _ => n
  | .dir n _ => n

/-- `entry.file_type().map(|t| t.is_dir()).unwrap_or(false)`. -/
def FSNode.isDir : FSNode → Bool
  | .file _ _ => false
  | .dir _ _ => true

/-- The `sort_by` comparator of `build_tree` as a boolean "less or equal"
(`cmp(a, b) != Greater`): directories first, then by raw name. -/
def nodeLe (a b : FSNode) : Bool :=
  match a.isDir, b.isDir with
  | true, false => true
  | false, true => false
  | _, _ => decide (a.name ≤ b.name)

/-- `projects.rs::TreeEntry` (recursive, hence a plain inductive). -/
inductive TreeEntry where
  | mk (name : String) (path : String) (is_dir : Bool) (size : Option Nat)
      (language : Option String) (children : Option (List TreeEntry))

def TreeEntry.name : TreeEntry → String
  | .mk n _ _ _ _ _ => n

def TreeEntry.is_dir : TreeEntry → Bool
  | .mk _ _ d _ _ _ => d

def TreeEntry.children : TreeEntry → Option (List TreeEntry)
  | .mk _ _ _ _ _ c => c

/-- The root-relative, forward-slash-separated path of a child named
`name` under the (already root-relative) prefix `pfx`; models
`entry.path().strip_prefix(project_root) ... .replace('\\', "/")`. -/
def relPath (pfx name : String) : String :=
  if pfx = "" then name else pfx ++ "/" ++ name

mutual
/-- `projects.rs::build_tree`: read the directory entries, sort them with
the directories-first/name comparator (Rust's stable `sort_by`, modelled
by `mergeSort`), then process each entry in order: drop excluded and
hidden names; recurse into directories, dropping those whose built
children list is empty; drop binary-extension files; keep the rest with
size and language metadata.  `pfx` is the root-relative path of `dir`
(`""` at the project root). -/
def build_tree (nodes : List FSNode) (pfx : String) : List TreeEntry :=
  build_sorted (nodes.mergeSort nodeLe) pfx
termination_by 2 * sizeOf nodes + 1
decreasing_by
  have h := List.Perm.sizeOf_eq_sizeOf (List.mergeSort_perm nodes nodeLe)
  omega

/-- The `for entry in dir_entries` loop body of `build_tree`, over the
already-sorted entry list. -/
def build_sorted (l : List FSNode) (pfx : String) : List TreeEntry :=
  match l with
  | [] => []
  | entry :: rest =>
    if should_exclude_entry entry.name entry.isDir then build_sorted rest pfx
    else if entry.name.startsWith "." then build_sorted rest pfx
    else
      let relative_path := relPath pfx entry.name
      match entry with
      | .dir name children =>
        let cs := build_tree children relative_path
        if cs.isEmpty then build_sorted rest pfx
        else .mk name relative_path true none none (some cs) :: build_sorted rest pfx
      | .file name size =>
        if is_binary_extension name then build_sorted rest pfx
        else .mk name relative_path false size (detect_language name) none
              :: build_sorted rest pfx
termination_by 2 * sizeOf l
decreasing_by
  all_goals simp_arith [FSNode.isDir]
end

/-- One iteration of `build_tree`'s loop as a per-entry function: the
`TreeEntry` the iteration appends, or `none` when the entry is dropped.
(The loop body inspects only the current entry, so the whole loop is
`filterMap sproc` — proved below.) -/
def sproc (pfx : String) (entry : FSNode) : Option TreeEntry :=
  if should_exclude_entry entry.name entry.isDir then none
  else if entry.name.startsWith "." then none
  else
    let relative_path := relPath pfx entry.name
    match entry with
    | .dir name children =>
      let cs := build_tree children relative_path
      if cs.isEmpty then none
      else some (.mk name relative_path true none none (some cs))
    | .file name size =>
      if is_binary_extension name then none
      else some (.mk name relative_path false size (detect_language name) none)

/-- The C3 invariant, recursively through a tree: a file entry carries no
children field, and a directory entry carries a present, non-empty
children list all of whose members satisfy the invariant again. -/
def dirInv (t : TreeEntry) : Bool :=
  match t with
  | .mk _ _ d _ _ none => !d
  | .mk _ _ d _ _ (some cs) =>
    d && !cs.isEmpty && cs.attach.all fun c => dirInv c.1
termination_by sizeOf t
decreasing_by
  have h1 := List.sizeOf_lt_of_mem c.2
  simp only [TreeEntry.mk.sizeOf_spec, Option.some.sizeOf_spec]
  omega

/-- The directories-first/name order on produced entries. -/
def entryLe (a b : TreeEntry) : Bool :=
  match a.is_dir, b.is_dir with
  | true, false => true
  | false, true => false
  | _, _ => decide (a.name ≤ b.name)

/-- Adjacent-pairs ordering check for one level of a tree listing. -/
def chainLe : List TreeEntry → Bool
  | [] => true
  | [_] => true
  | a :: b :: t => entryLe a b && chainLe (b :: t)

/-- Every level of the tree below `t` is ordered by `entryLe`. -/
def sortedLevels (t : TreeEntry) : Bool :=
  match t with
  | .mk _ _ _ _ _ none => true
  | .mk _ _ _ _ _ (some cs) => chainLe cs && cs.attach.all fun c => sortedLevels c.1
termination_by sizeOf t
decreasing_by
  have h1 := List.sizeOf_lt_of_mem c.2
  simp only [TreeEntry.mk.sizeOf_spec, Option.some.sizeOf_spec]
  omega

/- ### Project listing (`projects.rs::list_projects`) -/

/-- One successfully-read entry of the projects directory as
`list_projects` inspects it: its name, whether `file_type()` reported a
directory, and whether `README.md` / `CLAUDE.md` exist at its root.
(Entries whose read errored are already absent: the source's
`entries.flatten()`.) -/
structure PDirEntry where
  name : String
  isDir : Bool
  hasReadme : Bool
  hasClaude : Bool
deriving DecidableEq, Repr

/-- `projects.rs::Project`. -/
structure Project where
  name : String
  has_readme : Bool
  has_claude : Bool
deriving DecidableEq, Repr

/-- The `sort_by(|a, b| a.name.cmp(&b.name))` comparator as boolean le. -/
def projLe (a b : Project) : Bool := decide (a.name ≤ b.name)

/-- `projects.rs::list_projects` — GET /api/projects.  Total by type (the
Rust handler returns `Json<Vec<Project>>`, no error branch): a failed
`read_dir` (`none`) yields the empty listing; otherwise keep each
directory entry whose name does not start with a dot, record the marker
files, and sort ascending by name (Rust stable `sort_by`, modelled by
`mergeSort`). -/
def list_projects (dirRead : Option (List PDirEntry)) : List Project :=
  let projects :=
    match dirRead with
    | none => []
    | some entries =>
      entries.filterMap fun (e : PDirEntry) =>
        if e.isDir then
          if e.name.startsWith "." then none
          else some (Project.mk e.name e.hasReadme e.hasClaude)
        else none
  projects.mergeSort projLe

/- ### WebSocket connection loop (`mod.rs::handle_ws_connection`) -/

/-- `rx.recv()` outcomes of the `tokio::sync::broadcast` subscription. -/
inductive BroadcastRecv where
  | ok (text : String)
  | lagged (n : Nat)
  | closed
deriving DecidableEq, Repr

/-- One `socket.recv()` observation: a frame, an error, or `None`
(inbound stream ended). -/
inductive Inbound where
  | closeFrame
  | ping (data : String)
  | pong (data : String)
  | textFrame (data : String)
  | binaryFrame (data : String)
  | errFrame
  | streamEnd
deriving DecidableEq, Repr

/-- Which select arm fired this loop iteration. -/
inductive WsEvent where
  | fromHub (r : BroadcastRecv)
  | fromPeer (m : Inbound)
deriving DecidableEq, Repr

/-- An outbound frame whose send the iteration attempts. -/
inductive OutFrame where
  | text (data : String)
  | pong (data : String)
deriving DecidableEq, Repr

/-- Result of one loop iteration: the frames whose send was attempted and
whether the loop continues (`true`) or breaks (`false`). -/
structure WsStep where
  sent : List OutFrame
  continues : Bool
deriving DecidableEq, Repr

/-- One iteration of the `loop { tokio::select! { .. } }` body of
`handle_ws_connection`.  `sendOk` models the result of the `socket.send`
performed this iteration (irrelevant when none happens): a received
broadcast text is forwarded and a failed send breaks the loop; a lag
notification is only logged and the loop continues; a closed broadcast
channel breaks; a close frame or `None` (stream end) breaks; a ping is
answered with a pong whose send result is discarded (`let _ = ...`); any
other inbound frame is ignored; an inbound error breaks. -/
def wsStep (ev : WsEvent) (sendOk : Bool) : WsStep :=
  match ev with
  | .fromHub (.ok text) =>
    if sendOk then ⟨[.text text], true⟩ else ⟨[.text text], false⟩
  | .fromHub (.lagged _) => ⟨[], true⟩
  | .fromHub .closed => ⟨[], false⟩
  | .fromPeer .closeFrame => ⟨[], false⟩
  | .fromPeer .streamEnd => ⟨[], false⟩
  | .fromPeer (.ping d) => ⟨[.pong d], true⟩
  | .fromPeer (.pong _) => ⟨[], true⟩
  | .fromPeer (.textFrame _) => ⟨[], true⟩
  | .fromPeer (.binaryFrame _) => ⟨[], true⟩
  | .fromPeer .errFrame => ⟨[], false⟩

/- ### Network bootstrap (`mod.rs::start_server`) -/

/-- The TLS port computation `let tls_port = port + 1;` in u16
arithmetic: wraps modulo 2^16. -/
def tlsPort (port : Nat) : Nat := (port + 1) % 65536

/-- Bind interface of a listener. -/
inductive Iface where
  | loopback
  | allInterfaces
deriving DecidableEq, Repr

/-- One started listener: interface, port, TLS or plain, and the routed
application it serves (`α` stands for the router value; in the source the
same `app` is cloned to both listeners). -/
structure Listener (α : Type) where
  iface : Iface
  port : Nat
  tls : Bool
  app : α
deriving DecidableEq, Repr

/-- The serving topology `start_server` decides once at startup. -/
inductive Topology (α : Type) where
  | dual (primary secondary : Listener α)
  | single (only : Listener α) (warned : Bool)
  | fatalTlsLoad
deriving DecidableEq, Repr

/-- The `match (&tls_cert, &tls_key)` of `start_server`: with both
credential settings present, load the TLS material (`tlsLoadOk`; failure
is fatal) and run a plain loopback listener on `port` plus a TLS listener
on all interfaces on `port + 1`, both serving the same `app`; otherwise
run one plain listener on all interfaces on `port`, warning (not failing)
when exactly one setting was present. -/
def decide_topology {α : Type} (tls_cert tls_key : Option String)
    (tlsLoadOk : Bool) (port : Nat) (app : α) : Topology α :=
  match tls_cert, tls_key with
  | some _, some _ =>
    if tlsLoadOk then
      .dual ⟨.loopback, port, false, app⟩
        ⟨.allInterfaces, tlsPort port, true, app⟩
    else .fatalTlsLoad
  | _, _ =>
    .single ⟨.allInterfaces, port, false, app⟩
      (tls_cert.isSome || tls_key.isSome)

/-- What became of one listener at runtime. -/
inductive ListenerOutcome where
  | bindFailedLogged
  | serveFailedLogged
  | served
deriving DecidableEq, Repr

/-- Errors `start_server` itself returns in dual mode. -/
inductive ServerError where
  | tlsLoad
  | tlsServe
deriving DecidableEq, Repr

instance : DecidableEq (Except ServerError Unit) := fun a b =>
  match a, b with
  | .ok (), .ok () => isTrue rfl
  | .error e, .error f =>
    if h : e = f then isTrue (by rw [h]) else
      isFalse (by intro hh; cases hh; exact h rfl)
  | .ok _, .error _ => isFalse (by intro h; cases h)
  | .error _, .ok _ => isFalse (by intro h; cases h)

/-- Runtime outcome of the dual-listener branch: the fate of the spawned
loopback listener task and of the TLS listener (`none` = never started),
and `start_server`'s own return value. -/
structure DualRun where
  primary : Option ListenerOutcome
  secondary : Option ListenerOutcome
  result : Except ServerError Unit
deriving DecidableEq, Repr

/-- The dual-listener branch of `start_server` at runtime.  A TLS config
load failure returns an error before either listener starts.  Otherwise
the loopback HTTP listener runs in a detached `tokio::spawn` task: its
bind or serve failure is logged inside that task and propagates nowhere.
The TLS listener runs in the calling task: its failure is logged and
returned as `start_server`'s error — without cancelling the detached
primary task. -/
def dual_mode (tlsLoadOk primaryBindOk primaryServeOk tlsServeOk : Bool) :
    DualRun :=
  if ¬ tlsLoadOk then ⟨none, none, .error .tlsLoad⟩
  else
    let primary :=
      if ¬ primaryBindOk then ListenerOutcome.bindFailedLogged
      else if ¬ primaryServeOk then ListenerOutcome.serveFailedLogged
      else ListenerOutcome.served
    if tlsServeOk then ⟨some primary, some .served, .ok ()⟩
    else ⟨some primary, some .serveFailedLogged, .error .tlsServe⟩

/- ### A concrete example filesystem (for witnesses/counterexamples) -/

/-- Example org root `/srv/org`. -/
def exRoot : FsPath := ⟨true, ["srv", "org"]⟩

/-- Canonical form of the example projects root. -/
def exProjects : CanonPath := ["srv", "org", "projects"]

/-- Name path of the example project `alpha`. -/
def exAlpha : FsPath := ⟨false, ["alpha"]⟩

/-- A traversal path `../../etc/passwd` escaping the projects root. -/
def exEscape : FsPath := ⟨false, ["..", "..", "etc", "passwd"]⟩

/-- A relative path naming a directory `sub` inside project `alpha`. -/
def exSub : FsPath := ⟨false, ["sub"]⟩

/-- A relative path that exists nowhere. -/
def exGhost : FsPath := ⟨false, ["ghost"]⟩

/-- A tiny concrete filesystem: the projects root and project `alpha`
exist; `alpha` holds a subdirectory `sub`; `../../etc/passwd` resolves to
the (existing, out-of-root) `/etc/passwd`; everything else fails to
canonicalize.  Writing succeeds everywhere except at the directory `sub`
(an OS write to a directory errors). -/
def exFS : FS where
  canonicalize p :=
    if p = projectsPath exRoot then some exProjects
    else if p = (projectsPath exRoot).join exAlpha then
      some ["srv", "org", "projects", "alpha"]
    else if p = ((projectsPath exRoot).join exAlpha).join exEscape then
      some ["etc", "passwd"]
    else if p = ((projectsPath exRoot).join exAlpha).join exSub then
      some ["srv", "org", "projects", "alpha", "sub"]
    else none
  is_file p := decide (p = ["etc", "passwd"])
  is_dir p := decide (p = (projectsPath exRoot).join exAlpha)
  read_to_string _ := some "secret"
  metadata_len _ := some 6
  write_ok p := decide (p ≠ ["srv", "org", "projects", "alpha", "sub"])
  tree_of _ := []

/- ### Claim C5 -/

/-- C5 counterexample.  The claim says detect_language is a function of the
*lowercase* substring after the last dot and that a filename with *no
extension* gets no tag.  Both fail on the code: `rsplit('.').next()` on a
dot-less filename yields the whole filename (so the file named `rs` gets
the tag `rust`), and the match is case-sensitive on the raw substring (so
`a.RS` gets no tag while `a.rs` gets `rust`). -/
theorem c5_counterexample :
    detect_language "rs" = some "rust" ∧
    detect_language "a.RS" = none ∧
    detect_language "a.rs" = some "rust" := by
  refine ⟨?_, ?_, ?_⟩ <;> decide

/-- C5 (amended): `detect_language` is a total pure function of the raw,
case-sensitively matched substring after the last dot of the filename —
taken to be the whole filename when it contains no dot; an unrecognized
substring yields no tag, and equal substrings always yield the same tag. -/
theorem c5_language_detection :
    (∀ f, detect_language f = langOfExt (extOf f)) ∧
    (∀ f g, extOf f = extOf g → detect_language f = detect_language g) ∧
    langOfExt "RS" = none ∧ langOfExt "rs" = some "rust" := by
  refine ⟨fun f => rfl, fun f g h => ?_, by decide, by decide⟩
  unfold detect_language
  rw [h]

/-- C5 witness: two different filenames with the same trailing substring
receive the same tag. -/
theorem c5_language_detection_witness :
    extOf "a.rs" = extOf "b.c.rs" ∧
    detect_language "a.rs" = detect_language "b.c.rs" :=
  ⟨by decide, c5_language_detection.2.1 "a.rs" "b.c.rs" (by decide)⟩

/- ### Claim C1 -/

/-- C1: path-traversal sandboxing.  Assuming the projects root
canonicalizes to `cp`: (1) whenever the client-supplied full file path
canonicalizes outside `cp` (or fails to canonicalize), `get_file` and
`put_file` answer Forbidden or NotFound and `put_file` never reaches its
write call; (2) whenever the project directory canonicalizes outside `cp`
(or fails to), `get_tree` answers Forbidden or NotFound; (3) any content
`get_file` does return was read from a canonical path inside `cp`. -/
theorem c1_sandbox_escape (fs : FS) (org_root name file_path : FsPath)
    (content : String) (cp : CanonPath)
    (hroot : fs.canonicalize (projectsPath org_root) = some cp) :
    ((∀ ct, fs.canonicalize (((projectsPath org_root).join name).join file_path) = some ct →
        ¬ cp.isPrefixOf ct) →
      (get_file fs org_root name file_path = .error .forbidden ∨
       get_file fs org_root name file_path = .error .notFound) ∧
      ((put_file fs org_root name file_path content).result = .error .forbidden ∨
       (put_file fs org_root name file_path content).result = .error .notFound) ∧
      (put_file fs org_root name file_path content).writeTarget = none) ∧
    ((∀ ct, fs.canonicalize ((projectsPath org_root).join name) = some ct →
        ¬ cp.isPrefixOf ct) →
      (get_tree fs org_root name = .error .forbidden ∨
       get_tree fs org_root name = .error .notFound)) ∧
    (∀ f, get_file fs org_root name file_path = .ok f →
      ∃ ct, fs.canonicalize (((projectsPath org_root).join name).join file_path) = some ct ∧
        cp.isPrefixOf ct ∧ fs.read_to_string ct = some f.content) := by
  refine ⟨?_, ?_, ?_⟩
  · intro hout
    cases hc : fs.canonicalize (((projectsPath org_root).join name).join file_path) with
    | none =>
      simp only [get_file, put_file, hroot, hc]
      exact ⟨Or.inr trivial, Or.inr trivial, trivial⟩
    | some ct =>
      have hnp := hout ct hc
      simp only [get_file, put_file, hroot, hc, if_pos hnp]
      exact ⟨Or.inl trivial, Or.inl trivial, trivial⟩
  · intro hout
    by_cases hd : fs.is_dir ((projectsPath org_root).join name)
    · cases hc : fs.canonicalize ((projectsPath org_root).join name) with
      | none =>
        simp only [get_tree, hroot, hc, hd]
        exact Or.inr (by simp)
      | some ct =>
        have hnp := hout ct hc
        simp only [get_tree, hroot, hc, hd, if_pos hnp]
        exact Or.inl (by simp)
    · simp only [get_tree]
      rw [if_pos hd]
      exact Or.inr rfl
  · intro f hf
    cases hc : fs.canonicalize (((projectsPath org_root).join name).join file_path) with
    | none =>
      simp only [get_file, hroot, hc] at hf
      exact Except.noConfusion hf
    | some ct =>
      simp only [get_file, hroot, hc] at hf
      by_cases hp : cp.isPrefixOf ct
      · rw [if_neg (by simpa using hp)] at hf
        by_cases hisf : fs.is_file ct
        · rw [if_neg (by simpa using hisf)] at hf
          cases hr : fs.read_to_string ct with
          | none => rw [hr] at hf; simp at hf
          | some c =>
            rw [hr] at hf
            injection hf with h2
            refine ⟨ct, rfl, hp, ?_⟩
            rw [← h2]
            exact hr
        · rw [if_pos (by simpa using hisf)] at hf; simp at hf
      · rw [if_pos (by simpa using hp)] at hf; simp at hf

/-- C1 witness: on the concrete filesystem, reading or writing
`alpha/../../etc/passwd` (which canonicalizes to the out-of-root
`/etc/passwd`) is rejected. -/
theorem c1_sandbox_escape_witness :
    exFS.canonicalize (projectsPath exRoot) = some exProjects ∧
    ((get_file exFS exRoot exAlpha exEscape = .error .forbidden ∨
      get_file exFS exRoot exAlpha exEscape = .error .notFound) ∧
     ((put_file exFS exRoot exAlpha exEscape "x").result = .error .forbidden ∨
      (put_file exFS exRoot exAlpha exEscape "x").result = .error .notFound) ∧
     (put_file exFS exRoot exAlpha exEscape "x").writeTarget = none) := by
  have h1 : exFS.canonicalize (projectsPath exRoot) = some exProjects := by decide
  have hc : exFS.canonicalize (((projectsPath exRoot).join exAlpha).join exEscape) =
      some ["etc", "passwd"] := by decide
  have h2 : ∀ ct, exFS.canonicalize (((projectsPath exRoot).join exAlpha).join exEscape) =
      some ct → ¬ exProjects.isPrefixOf ct := by
    intro ct hct
    rw [hc] at hct
    cases hct
    decide
  exact ⟨h1, (c1_sandbox_escape exFS exRoot exAlpha exEscape "x" exProjects h1).1 h2⟩

/- ### Claim C2 -/

/-- C2 counterexample.  The claim says every relative path that does not
name an already-existing file gets NotFound.  But `put_file`'s only
existence check is `canonicalize`: a path naming an existing *directory*
(here `alpha/sub`) canonicalizes fine and passes the prefix guard, so the
handler proceeds to `tokio::fs::write`, which fails on a directory, and
the client sees InternalError (500) — not NotFound (404). -/
theorem c2_counterexample :
    exFS.is_file ["srv", "org", "projects", "alpha", "sub"] = false ∧
    exFS.canonicalize (((projectsPath exRoot).join exAlpha).join exSub) =
      some ["srv", "org", "projects", "alpha", "sub"] ∧
    (put_file exFS exRoot exAlpha exSub "hi").result = .error .internalError := by
  refine ⟨by decide, by decide, ?_⟩
  rfl

/-- C2 (amended): writing to a path that does not exist on disk (its
canonicalization fails) returns NotFound and control never reaches the
write call, so the filesystem is untouched; moreover every write `put_file`
does attempt targets the canonical form of the client's path — a path that
existed at canonicalization time and lies inside the canonical projects
root — so `put_file` never creates a file that did not already exist.  (A
path naming an existing non-file, e.g. a directory, inside the root is
answered with InternalError from the failed write, not NotFound.) -/
theorem c2_put_never_creates (fs : FS) (org_root name file_path : FsPath)
    (content : String) (cp : CanonPath)
    (hroot : fs.canonicalize (projectsPath org_root) = some cp) :
    (fs.canonicalize (((projectsPath org_root).join name).join file_path) = none →
      put_file fs org_root name file_path content =
        ⟨.error .notFound, none⟩) ∧
    (∀ q, (put_file fs org_root name file_path content).writeTarget = some q →
      fs.canonicalize (((projectsPath org_root).join name).join file_path) = some q ∧
      cp.isPrefixOf q) := by
  constructor
  · intro hc
    simp only [put_file, hroot, hc]
  · intro q hq
    cases hc : fs.canonicalize (((projectsPath org_root).join name).join file_path) with
    | none =>
      simp only [put_file, hroot, hc] at hq
      exact Option.noConfusion hq
    | some ct =>
      simp only [put_file, hroot, hc] at hq
      by_cases hp : cp.isPrefixOf ct
      · rw [if_neg (by simpa using hp)] at hq
        by_cases hw : fs.write_ok ct
        · rw [if_pos hw] at hq
          simp only at hq
          cases hq
          exact ⟨rfl, hp⟩
        · rw [if_neg hw] at hq
          simp only at hq
          cases hq
          exact ⟨rfl, hp⟩
      · rw [if_pos (by simpa using hp)] at hq
        simp at hq

/-- C2 witness: writing to the nonexistent `alpha/ghost` on the concrete
filesystem returns NotFound with no write attempted. -/
theorem c2_put_never_creates_witness :
    exFS.canonicalize (projectsPath exRoot) = some exProjects ∧
    exFS.canonicalize (((projectsPath exRoot).join exAlpha).join exGhost) = none ∧
    put_file exFS exRoot exAlpha exGhost "hi" = ⟨.error .notFound, none⟩ := by
  have h1 : exFS.canonicalize (projectsPath exRoot) = some exProjects := by decide
  have h2 : exFS.canonicalize (((projectsPath exRoot).join exAlpha).join exGhost) = none := by
    decide
  exact ⟨h1, h2,
    (c2_put_never_creates exFS exRoot exAlpha exGhost "hi" exProjects h1).1 h2⟩

/- ### Tree builder lemmas -/

/-- Unfolding one loop iteration of `build_sorted` through `sproc`. -/
theorem build_sorted_cons (e : FSNode) (rest : List FSNode) (pfx : String) :
    build_sorted (e :: rest) pfx =
      match sproc pfx e with
      | none => build_sorted rest pfx
      | some t => t :: build_sorted rest pfx := by
  rw [build_sorted]
  unfold sproc
  cases e with
  | file name size =>
    simp only [FSNode.name, FSNode.isDir]
    split_ifs with h1 h2 h3 <;> rfl
  | dir name children =>
    simp only [FSNode.name, FSNode.isDir]
    split_ifs with h1 h2 h3 <;> rfl

/-- The loop over sorted entries is a `filterMap`: each iteration depends
only on its own entry. -/
theorem build_sorted_eq_filterMap (l : List FSNode) (pfx : String) :
    build_sorted l pfx = l.filterMap (sproc pfx) := by
  induction l with
  | nil => rw [build_sorted]; rfl
  | cons e rest ih =>
    rw [build_sorted_cons, List.filterMap_cons]
    cases hs : sproc pfx e <;> simp [hs, ih]

/-- `build_tree` = sort, then per-entry filterMap. -/
theorem build_tree_eq (nodes : List FSNode) (pfx : String) :
    build_tree nodes pfx = (nodes.mergeSort nodeLe).filterMap (sproc pfx) := by
  rw [build_tree, build_sorted_eq_filterMap]

/-- Membership in a built tree comes from processing some input entry. -/
theorem mem_build_tree {e : TreeEntry} {nodes : List FSNode} {pfx : String} :
    e ∈ build_tree nodes pfx ↔ ∃ n ∈ nodes, sproc pfx n = some e := by
  rw [build_tree_eq, List.mem_filterMap]
  constructor
  · rintro ⟨n, hn, h⟩
    exact ⟨n, ((List.mergeSort_perm nodes nodeLe).mem_iff).mp hn, h⟩
  · rintro ⟨n, hn, h⟩
    exact ⟨n, ((List.mergeSort_perm nodes nodeLe).mem_iff).mpr hn, h⟩

/-- A produced entry mirrors its source entry's kind and name. -/
theorem sproc_shape (pfx : String) (n : FSNode) (e : TreeEntry)
    (h : sproc pfx n = some e) : e.is_dir = n.isDir ∧ e.name = n.name := by
  unfold sproc at h
  cases n with
  | file name size =>
    simp only [FSNode.name, FSNode.isDir] at h ⊢
    split_ifs at h with h1 h2 h3 <;> try exact Option.noConfusion h
    injection h with h'
    subst h'
    exact ⟨rfl, rfl⟩
  | dir name children =>
    simp only [FSNode.name, FSNode.isDir] at h ⊢
    split_ifs at h with h1 h2 h3 <;> try exact Option.noConfusion h
    injection h with h'
    subst h'
    exact ⟨rfl, rfl⟩

/-- Any entry `sproc` emits satisfies the no-empty-directories invariant,
recursively (strong induction on the size of the source entry). -/
theorem sproc_dirInv : ∀ (k : Nat) (n : FSNode) (pfx : String) (e : TreeEntry),
    sizeOf n ≤ k → sproc pfx n = some e → dirInv e = true := by
  intro k
  induction k using Nat.strong_induction_on with
  | _ k ih =>
    intro n pfx e hk h
    cases n with
    | file name size =>
      unfold sproc at h
      simp only [FSNode.name, FSNode.isDir] at h
      split_ifs at h with h1 h2 h3 <;> try exact Option.noConfusion h
      injection h with h'
      subst h'
      rw [dirInv]
      rfl
    | dir name children =>
      unfold sproc at h
      simp only [FSNode.name, FSNode.isDir] at h
      split_ifs at h with h1 h2 h3 <;> try exact Option.noConfusion h
      injection h with h'
      subst h'
      have hall : ∀ c ∈ build_tree children (relPath pfx name), dirInv c = true := by
        intro c hc
        obtain ⟨m, hm, hmc⟩ := mem_build_tree.mp hc
        have hms : sizeOf m < sizeOf children := List.sizeOf_lt_of_mem hm
        have hlt : sizeOf children < sizeOf (FSNode.dir name children) := by
          simp_arith
        exact ih (sizeOf m) (by omega) m _ c le_rfl hmc
      rw [dirInv]
      simp only [Bool.and_eq_true, List.all_eq_true]
      exact ⟨⟨by trivial, by simpa using h3⟩, fun c _ => hall c.1 c.2⟩

/-- The sort comparator is transitive. -/
theorem nodeLe_trans : ∀ a b c : FSNode,
    nodeLe a b = true → nodeLe b c = true → nodeLe a c = true := by
  intro a b c hab hbc
  unfold nodeLe at *
  cases ha : a.isDir <;> cases hb : b.isDir <;> cases hc : c.isDir <;>
    simp [ha, hb, hc] at * <;> exact le_trans hab hbc

/-- The sort comparator is total. -/
theorem nodeLe_total : ∀ a b : FSNode, (nodeLe a b || nodeLe b a) = true := by
  intro a b
  unfold nodeLe
  cases ha : a.isDir <;> cases hb : b.isDir <;> simp [ha, hb] <;>
    exact le_total _ _

/-- Mutually `nodeLe`-comparable entries share a name. -/
theorem nodeLe_antisymm_name (a b : FSNode) (hab : nodeLe a b = true)
    (hba : nodeLe b a = true) : a.name = b.name := by
  unfold nodeLe at *
  cases ha : a.isDir <;> cases hb : b.isDir <;> simp [ha, hb] at * <;>
    exact String.ext (le_antisymm hab hba)

/-- Each level of a built tree is pairwise ordered: directories before
files, then ascending by raw name. -/
theorem build_tree_pairwise (nodes : List FSNode) (pfx : String) :
    List.Pairwise (fun a b => entryLe a b = true) (build_tree nodes pfx) := by
  rw [build_tree_eq]
  refine List.Pairwise.filterMap _ ?_
    (List.sorted_mergeSort nodeLe_trans nodeLe_total nodes)
  intro a a' hr b hb b' hb'
  have hsb := sproc_shape pfx a b (Option.mem_def.mp hb)
  have hsb' := sproc_shape pfx a' b' (Option.mem_def.mp hb')
  unfold entryLe
  rw [hsb.1, hsb.2, hsb'.1, hsb'.2]
  exact hr

/-- A pairwise-ordered level passes the adjacent-pairs check. -/
theorem chainLe_of_pairwise (l : List TreeEntry)
    (h : List.Pairwise (fun a b => entryLe a b = true) l) : chainLe l = true := by
  induction l with
  | nil => rfl
  | cons a t ih =>
    cases t with
    | nil => rfl
    | cons b u =>
      rw [chainLe]
      rw [List.pairwise_cons] at h
      simp [h.1 b (by simp), ih h.2]

/-- Any entry `sproc` emits has every level below it ordered. -/
theorem sproc_sortedLevels : ∀ (k : Nat) (n : FSNode) (pfx : String) (e : TreeEntry),
    sizeOf n ≤ k → sproc pfx n = some e → sortedLevels e = true := by
  intro k
  induction k using Nat.strong_induction_on with
  | _ k ih =>
    intro n pfx e hk h
    cases n with
    | file name size =>
      unfold sproc at h
      simp only [FSNode.name, FSNode.isDir] at h
      split_ifs at h with h1 h2 h3 <;> try exact Option.noConfusion h
      injection h with h'
      subst h'
      rw [sortedLevels]
    | dir name children =>
      unfold sproc at h
      simp only [FSNode.name, FSNode.isDir] at h
      split_ifs at h with h1 h2 h3 <;> try exact Option.noConfusion h
      injection h with h'
      subst h'
      have hall : ∀ c ∈ build_tree children (relPath pfx name),
          sortedLevels c = true := by
        intro c hc
        obtain ⟨m, hm, hmc⟩ := mem_build_tree.mp hc
        have hms : sizeOf m < sizeOf children := List.sizeOf_lt_of_mem hm
        have hlt : sizeOf children < sizeOf (FSNode.dir name children) := by
          simp_arith
        exact ih (sizeOf m) (by omega) m _ c le_rfl hmc
      rw [sortedLevels]
      simp only [Bool.and_eq_true, List.all_eq_true]
      exact ⟨chainLe_of_pairwise _ (build_tree_pairwise children (relPath pfx name)),
        fun c _ => hall c.1 c.2⟩

/-- Sorted permutations with pairwise-distinct names coincide: the
dirs-first/name order admits only one sorted arrangement of a real
directory's entries. -/
theorem sorted_perm_eq_of_nodup_names :
    ∀ (l1 l2 : List FSNode), l1.Perm l2 →
      List.Pairwise (fun a b => nodeLe a b = true) l1 →
      List.Pairwise (fun a b => nodeLe a b = true) l2 →
      (l1.map FSNode.name).Nodup → l1 = l2 := by
  intro l1
  induction l1 with
  | nil => intro l2 hp _ _ _; exact (List.Perm.nil_eq hp).symm ▸ rfl
  | cons a t1 ih =>
    intro l2 hp hs1 hs2 hnd
    cases l2 with
    | nil => exact absurd hp.symm (by simp)
    | cons b t2 =>
      by_cases hab : a = b
      · subst hab
        have hp2 := hp.cons_inv
        have : t1 = t2 := by
          rw [List.map_cons, List.nodup_cons] at hnd
          exact ih t2 hp2 (List.pairwise_cons.mp hs1).2
            (List.pairwise_cons.mp hs2).2 hnd.2
        rw [this]
      · exfalso
        have ha2 : a ∈ b :: t2 := hp.subset (List.mem_cons_self a t1)
        have hb1 : b ∈ a :: t1 := hp.symm.subset (List.mem_cons_self b t2)
        have hat2 : a ∈ t2 := by
          rcases List.mem_cons.mp ha2 with h | h
          · exact absurd h hab
          · exact h
        have hbt1 : b ∈ t1 := by
          rcases List.mem_cons.mp hb1 with h | h
          · exact absurd h.symm hab
          · exact h
        have h1 : nodeLe a b = true := (List.pairwise_cons.mp hs1).1 b hbt1
        have h2 : nodeLe b a = true := (List.pairwise_cons.mp hs2).1 a hat2
        have hname := nodeLe_antisymm_name a b h1 h2
        have hmem : a.name ∈ t1.map FSNode.name := by
          rw [hname]
          exact List.mem_map_of_mem FSNode.name hbt1
        rw [List.map_cons, List.nodup_cons] at hnd
        exact hnd.1 hmem

/-- Sorting is permutation-invariant on entry lists with distinct names. -/
theorem mergeSort_eq_of_perm_nodup (l1 l2 : List FSNode) (hp : l1.Perm l2)
    (hnd : (l1.map FSNode.name).Nodup) :
    l1.mergeSort nodeLe = l2.mergeSort nodeLe := by
  have p1 := List.mergeSort_perm l1 nodeLe
  have p2 := List.mergeSort_perm l2 nodeLe
  refine sorted_perm_eq_of_nodup_names _ _ (p1.trans (hp.trans p2.symm))
    (List.sorted_mergeSort nodeLe_trans nodeLe_total l1)
    (List.sorted_mergeSort nodeLe_trans nodeLe_total l2) ?_
  exact ((p1.map FSNode.name).nodup_iff).mpr hnd

/- ### Claim C3 -/

/-- C3: in every tree `build_tree` produces, recursively at every depth, a
directory entry always carries a present and non-empty children list (and
a file entry carries none) — a directory whose contents are filtered away
entirely is omitted rather than emitted with zero children. -/
theorem c3_no_empty_dirs : ∀ (nodes : List FSNode) (pfx : String),
    (build_tree nodes pfx).all dirInv = true := by
  intro nodes pfx
  rw [List.all_eq_true]
  intro e he
  obtain ⟨n, hn, h⟩ := mem_build_tree.mp he
  exact sproc_dirInv (sizeOf n) n pfx e le_rfl h

/- ### Claim C4 -/

/-- C4: at every level of a built tree all directory entries precede all
file entries and each kind-group is ascending by raw name (pairwise
`entryLe` at the top level and, via `sortedLevels`, at every depth); and
the result is independent of filesystem enumeration order: permuting the
input entries (with the distinct names a real directory guarantees) leaves
the built tree unchanged. -/
theorem c4_child_ordering :
    (∀ (nodes : List FSNode) (pfx : String),
      List.Pairwise (fun a b => entryLe a b = true) (build_tree nodes pfx) ∧
      (build_tree nodes pfx).all sortedLevels = true) ∧
    (∀ (n1 n2 : List FSNode) (pfx : String), n1.Perm n2 →
      (n1.map FSNode.name).Nodup → build_tree n1 pfx = build_tree n2 pfx) := by
  constructor
  · intro nodes pfx
    refine ⟨build_tree_pairwise nodes pfx, ?_⟩
    rw [List.all_eq_true]
    intro e he
    obtain ⟨n, hn, h⟩ := mem_build_tree.mp he
    exact sproc_sortedLevels (sizeOf n) n pfx e le_rfl h
  · intro n1 n2 pfx hp hnd
    rw [build_tree_eq, build_tree_eq, mergeSort_eq_of_perm_nodup n1 n2 hp hnd]

/-- C4 witness: two enumeration orders of the same two files yield the
same tree. -/
theorem c4_child_ordering_witness :
    ([FSNode.file "b" none, FSNode.file "a" none].Perm
      [FSNode.file "a" none, FSNode.file "b" none]) ∧
    (([FSNode.file "b" none, FSNode.file "a" none].map FSNode.name).Nodup) ∧
    build_tree [FSNode.file "b" none, FSNode.file "a" none] "" =
      build_tree [FSNode.file "a" none, FSNode.file "b" none] "" :=
  ⟨List.Perm.swap _ _ _, by decide,
    c4_child_ordering.2 _ _ "" (List.Perm.swap _ _ _) (by decide)⟩

/- ### Claim C9 -/

/-- The listing comparator is transitive. -/
theorem projLe_trans : ∀ a b c : Project,
    projLe a b = true → projLe b c = true → projLe a c = true := by
  intro a b c hab hbc
  unfold projLe at *
  exact decide_eq_true (le_trans (of_decide_eq_true hab) (of_decide_eq_true hbc))

/-- The listing comparator is total. -/
theorem projLe_total : ∀ a b : Project, (projLe a b || projLe b a) = true := by
  intro a b
  unfold projLe
  rcases le_total a.name b.name with h | h <;> simp [h]

/-- C9: `list_projects` is total by construction (no error branch in its
type); a failed directory read yields the empty listing; the result is
ascending by name; and it holds exactly one `Project` per non-hidden
directory entry, carrying that entry\'s name and `README.md`/`CLAUDE.md`
marker flags. -/
theorem c9_list_projects :
    list_projects none = [] ∧
    (∀ entries, List.Pairwise (fun a b : Project => a.name ≤ b.name)
      (list_projects (some entries))) ∧
    (∀ entries p, p ∈ list_projects (some entries) ↔
      ∃ e ∈ entries, e.isDir = true ∧ e.name.startsWith "." = false ∧
        p = Project.mk e.name e.hasReadme e.hasClaude) := by
  refine ⟨by simp [list_projects], ?_, ?_⟩
  · intro entries
    unfold list_projects
    exact (List.sorted_mergeSort projLe_trans projLe_total _).imp
      (fun h => of_decide_eq_true h)
  · intro entries p
    unfold list_projects
    rw [(List.mergeSort_perm _ projLe).mem_iff, List.mem_filterMap]
    constructor
    · rintro ⟨e, he, hfe⟩
      by_cases hd : e.isDir
      · by_cases hh : e.name.startsWith "."
        · simp [hd, hh] at hfe
        · simp only [hd, if_true, hh, if_false] at hfe
          refine ⟨e, he, hd, by simpa using hh, ?_⟩
          exact (Option.some.inj hfe).symm
      · simp [hd] at hfe
    · rintro ⟨e, he, hd, hh, hp⟩
      refine ⟨e, he, ?_⟩
      simp [hd, hh, hp]

/- ### Claim C6 -/

/-- C6 counterexample.  The claim\'s "terminates exactly on ... a failed
outbound send" is too broad: a ping is answered with a pong whose send
result the code discards (`let _ = socket.send(...)`), so here an
outbound send is attempted, its send result is failure (`sendOk = false`),
and the session still continues. -/
theorem c6_counterexample :
    (wsStep (.fromPeer (.ping "x")) false).sent = [.pong "x"] ∧
    (wsStep (.fromPeer (.ping "x")) false).continues = true :=
  ⟨rfl, rfl⟩

/-- C6 (amended): a lag notification never terminates the session (the
loop continues; delivery resumes from the oldest retained event on the
next receive); a ping is answered with a pong regardless of the pong
send\'s result; pong/text/binary inbound frames are ignored; and the loop
breaks exactly on a received close frame, inbound stream end, inbound
error, closure of the broadcast channel, or a failed send *of a forwarded
broadcast event* (a failed pong send is ignored). -/
theorem c6_session_loop :
    (∀ n s, wsStep (.fromHub (.lagged n)) s = ⟨[], true⟩) ∧
    (∀ d s, wsStep (.fromPeer (.ping d)) s = ⟨[.pong d], true⟩) ∧
    (∀ d s, wsStep (.fromPeer (.pong d)) s = ⟨[], true⟩ ∧
      wsStep (.fromPeer (.textFrame d)) s = ⟨[], true⟩ ∧
      wsStep (.fromPeer (.binaryFrame d)) s = ⟨[], true⟩) ∧
    (∀ ev s, (wsStep ev s).continues = false ↔
      (ev = .fromPeer .closeFrame ∨ ev = .fromPeer .streamEnd ∨
       ev = .fromPeer .errFrame ∨ ev = .fromHub .closed ∨
       (∃ t, ev = .fromHub (.ok t) ∧ s = false))) := by
  refine ⟨fun n s => rfl, fun d s => rfl, fun d s => ⟨rfl, rfl, rfl⟩, ?_⟩
  intro ev s
  cases ev with
  | fromHub r =>
    cases r with
    | ok t => cases s <;> simp [wsStep]
    | lagged n => simp [wsStep]
    | closed => simp [wsStep]
  | fromPeer m => cases m <;> simp [wsStep]

/- ### Claim C7 -/

/-- C7: with both credential settings present and loading valid, the
topology is two listeners — plain HTTP on loopback at the configured port
and TLS on all interfaces at the configured port + 1 — both carrying the
same routed application; with neither setting, a single plain listener on
all interfaces at the configured port with no warning; with exactly one
setting (either one), the same single plain listener with the
misconfiguration warning instead of a failure. -/
theorem c7_listener_topology {α : Type} (c k : String) (port : Nat) (app : α) :
    decide_topology (some c) (some k) true port app =
      .dual ⟨.loopback, port, false, app⟩
        ⟨.allInterfaces, tlsPort port, true, app⟩ ∧
    (∀ b, decide_topology (none : Option String) (none : Option String) b port app =
      .single ⟨.allInterfaces, port, false, app⟩ false) ∧
    (∀ b, decide_topology (some c) (none : Option String) b port app =
      .single ⟨.allInterfaces, port, false, app⟩ true) ∧
    (∀ b, decide_topology (none : Option String) (some k) b port app =
      .single ⟨.allInterfaces, port, false, app⟩ true) :=
  ⟨rfl, fun _ => rfl, fun _ => rfl, fun _ => rfl⟩

/- ### Claim C8 -/

/-- C8: in dual-listener mode, a TLS credential load failure makes
`start_server` return an error with neither listener started; once
serving, the loopback listener\'s fate is a function of its own bind and
serve results alone (the TLS listener\'s failure does not change it, and
vice versa); a primary bind failure is logged inside the detached task,
and a TLS serve failure is logged and surfaces as `start_server`\'s
returned error — still without touching the primary\'s outcome. -/
theorem c8_failure_domains :
    (∀ pb ps ts, dual_mode false pb ps ts =
      ⟨none, none, .error .tlsLoad⟩) ∧
    (∀ pb ps ts ts',
      (dual_mode true pb ps ts).primary = (dual_mode true pb ps ts').primary) ∧
    (∀ pb pb' ps ps' ts,
      (dual_mode true pb ps ts).secondary =
        (dual_mode true pb' ps' ts).secondary) ∧
    (∀ ps ts, (dual_mode true false ps ts).primary =
      some .bindFailedLogged) ∧
    (∀ pb ps, (dual_mode true pb ps false).secondary =
      some .serveFailedLogged) ∧
    (∀ pb ps, (dual_mode true pb ps false).result = .error .tlsServe) := by
  decide

/- ### Claim C10 -/

/-- C10: the TLS port is the configured port plus one in wrapping u16
arithmetic: below 65535 it is literally `port + 1`; at the maximum port
65535 the u16 addition wraps to 0, so no in-range TLS port exists and
callers must keep the configured port at most 65534. -/
theorem c10_tls_port_overflow :
    (∀ port : Nat, port ≤ 65534 → tlsPort port = port + 1) ∧
    tlsPort 65535 = 0 := by
  constructor
  · intro port h
    unfold tlsPort
    omega
  · rfl

/-- C10 witness: the default-style port 8080 maps to 8081. -/
theorem c10_tls_port_overflow_witness :
    8080 ≤ 65534 ∧ tlsPort 8080 = 8081 :=
  ⟨by decide, c10_tls_port_overflow.1 8080 (by decide)⟩

end OrgViewer
